import Mathlib

/-!
# Eurusys contract-management platform: core model and verification

Shallow embedding of the contract lifecycle core of the
`eurusys-contract-management-platform` repository:

* the data model (`ContractStatus`, `FieldType`, `BlueprintField`, `Blueprint`,
  `ContractField`, `Contract`) from `src/types`;
* the lifecycle state machine (`getValidTransitions`, `canTransition`) and
  the dashboard projection (`getStatusesForFilter`), modelled from the spec
  because `src/utils/stateMachine.ts` is not among the provided sources;
* the contract store operations from `src/stores/contractStore.ts`
  (`getContract`, `getContractsByFilter`, `createContract`,
  `updateContractFields`, `transitionStatus`, `deleteContract`,
  `searchContracts`), embedded as pure functions over an explicit state.

JavaScript mutations become explicit state passing.  In particular
`blueprint.fields.sort(...)` inside `createContract` mutates, in place, the
field array of the blueprint object stored in the blueprint store; the
embedding makes that visible by returning an updated blueprint list.
-/

namespace Eurusys

/-- The six lifecycle statuses (`ContractStatus` union type in `src/types`). -/
inductive ContractStatus where
  | CREATED
  | APPROVED
  | SENT
  | SIGNED
  | LOCKED
  | REVOKED
deriving DecidableEq, Repr, Fintype

/-- The four field types (`FieldType` union type in `src/types`). -/
inductive FieldType where
  | TEXT
  | DATE
  | SIGNATURE
  | CHECKBOX
deriving DecidableEq, Repr, Fintype

/-- The editable-by designation of a field (`'manager' | 'client' | 'both'`). -/
inductive EditableBy where
  | manager
  | client
  | both
deriving DecidableEq, Repr, Fintype

/-- A contract field's `value`: a string, a boolean, or `null`. -/
inductive FieldValue where
  | str (s : String)
  | bool (b : Bool)
  | null
deriving DecidableEq, Repr

/-- A blueprint field definition (`BlueprintField` in `src/types`). -/
structure BlueprintField where
  id : String
  type : FieldType
  label : String
  position : Int
  required : Bool
  editableBy : Option EditableBy
  placeholder : Option String
  defaultChecked : Option Bool
deriving DecidableEq, Repr

/-- A blueprint (`Blueprint` in `src/types`). -/
structure Blueprint where
  id : String
  name : String
  fields : List BlueprintField
  createdAt : String
  updatedAt : String
deriving DecidableEq, Repr

/-- A contract field instance (`ContractField` in `src/types`). -/
structure ContractField where
  id : String
  type : FieldType
  label : String
  position : Int
  required : Bool
  editableBy : Option EditableBy
  placeholder : Option String
  value : FieldValue
deriving DecidableEq, Repr

/-- A contract (`Contract` in `src/types`). -/
structure Contract where
  id : String
  name : String
  blueprintId : String
  blueprintName : String
  status : ContractStatus
  fields : List ContractField
  createdAt : String
  updatedAt : String
deriving DecidableEq, Repr

/-- The four dashboard filter buckets (`DashboardFilter` in `src/types`). -/
inductive DashboardFilter where
  | active
  | pending
  | signed
  | archived
deriving DecidableEq, Repr, Fintype

/-- Modelled from the spec: `getValidTransitions` of `src/utils/stateMachine.ts`
(the file is not among the provided sources; §4.1 of the spec gives the fixed
transition table, in this listed order). -/
def getValidTransitions : ContractStatus → List ContractStatus
  | .CREATED => [.APPROVED, .REVOKED]
  | .APPROVED => [.SENT, .REVOKED, .CREATED]
  | .SENT => [.SIGNED, .REVOKED]
  | .SIGNED => [.LOCKED]
  | .LOCKED => []
  | .REVOKED => []

/-- Modelled from the spec: `canTransition` of `src/utils/stateMachine.ts`
(not among the provided sources; spec §4.1: true iff the target status is a
member of the allowed set for the source status). -/
def canTransition (s t : ContractStatus) : Bool :=
  (getValidTransitions s).contains t

/-- Modelled from the spec: `getStatusesForFilter` of `src/utils` (not among
the provided sources; spec §4.4 gives the bucket map). -/
def getStatusesForFilter : DashboardFilter → List ContractStatus
  | .active => [.CREATED, .APPROVED]
  | .pending => [.SENT]
  | .signed => [.SIGNED, .LOCKED]
  | .archived => [.REVOKED]

/-- Index of a status along the linear lifecycle
`CREATED → APPROVED → SENT → SIGNED → LOCKED` (the `LIFECYCLE_STEPS` order in
`ContractView.tsx`), with the side-exit `REVOKED` placed last.  A transition
is "backward" when it strictly decreases this index. -/
def stepIdx : ContractStatus → Nat
  | .CREATED => 0
  | .APPROVED => 1
  | .SENT => 2
  | .SIGNED => 3
  | .LOCKED => 4
  | .REVOKED => 5

/-- JavaScript `String.prototype.trim`: strip leading and trailing whitespace
(embedded over the character list so that it is kernel-executable; the core
library's `String.trim` computes the same characters). -/
def jsTrim (s : String) : String :=
  ⟨((s.toList.dropWhile Char.isWhitespace).reverse.dropWhile Char.isWhitespace).reverse⟩

/-- JavaScript `String.prototype.toLowerCase`: lowercase every character
(embedded over the character list so that it is kernel-executable). -/
def jsToLower (s : String) : String :=
  ⟨s.toList.map Char.toLower⟩

/-- `getContract` of `contractStore.ts`: first stored contract with this id. -/
def getContract (contracts : List Contract) (id : String) : Option Contract :=
  contracts.find? (fun c => c.id == id)

/-- Modelled from the spec: `getBlueprint` of `src/stores/blueprintStore.ts`
(not among the provided sources; spec §4.2 calls it a read accessor looking an
id up in the blueprint store, so it yields the stored blueprint itself). -/
def getBlueprint (blueprints : List Blueprint) (id : String) : Option Blueprint :=
  blueprints.find? (fun b => b.id == id)

/-- `getContractsByFilter` of `contractStore.ts`: the stored contracts whose
status lies in the filter's bucket. -/
def getContractsByFilter (contracts : List Contract) (filter : DashboardFilter) :
    List Contract :=
  contracts.filter (fun c => (getStatusesForFilter filter).contains c.status)

/-- The comparator `(a, b) => a.position - b.position` used by
`blueprint.fields.sort` in `createContract`: ascending position order. -/
def fieldPosLe (a b : BlueprintField) : Prop :=
  a.position ≤ b.position

instance : DecidableRel fieldPosLe := fun a b =>
  inferInstanceAs (Decidable (a.position ≤ b.position))

/-- `blueprint.fields.sort((a, b) => a.position - b.position)`: a stable sort
of the field array by ascending position (ECMAScript `Array.prototype.sort`
is stable), embedded as an insertion sort. -/
def sortFieldsByPosition (fs : List BlueprintField) : List BlueprintField :=
  List.insertionSort fieldPosLe fs

/-- The per-field object literal built inside `createContract`: a fresh
`ContractField` copying the blueprint field's attributes, with `value`
initialized to `bf.defaultChecked ?? false` for `CHECKBOX` fields and to
`null` otherwise. -/
def snapshotField (bf : BlueprintField) : ContractField :=
  { id := bf.id
    type := bf.type
    label := bf.label
    position := bf.position
    required := bf.required
    editableBy := bf.editableBy
    placeholder := bf.placeholder
    value :=
      if bf.type == .CHECKBOX then .bool (bf.defaultChecked.getD false)
      else .null }

/-- Write-back of the in-place `Array.prototype.sort` mutation: the first
stored blueprint with the given id gets the new field array (the JavaScript
sort mutates the very array object held by that stored blueprint). -/
def setBlueprintFields : List Blueprint → String → List BlueprintField → List Blueprint
  | [], _, _ => []
  | b :: bs, i, fs =>
      if b.id == i then { b with fields := fs } :: bs
      else b :: setBlueprintFields bs i fs

/-- The combined store state: the blueprint store's `blueprints` slice and
the contract store's `contracts` slice. -/
structure AppState where
  blueprints : List Blueprint
  contracts : List Contract
deriving DecidableEq, Repr

/-- `createContract` of `contractStore.ts`.  `newId` stands for the fresh
`generateId()` result and `now` for `getCurrentTimestamp()`.  Returns the
`Contract | undefined` result together with the post-call store state; note
that `blueprint.fields.sort(...)` mutates the stored blueprint's field array
in place, which the returned state makes explicit. -/
def createContract (st : AppState) (newId now : String) (name blueprintId : String) :
    Option Contract × AppState :=
  if jsTrim name == "" then (none, st)
  else
    match getBlueprint st.blueprints blueprintId with
    | none => (none, st)
    | some blueprint =>
      let sorted := sortFieldsByPosition blueprint.fields
      let fields : List ContractField := sorted.map snapshotField
      let contract : Contract :=
        { id := newId
          name := jsTrim name
          blueprintId := blueprint.id
          blueprintName := blueprint.name
          status := .CREATED
          fields := fields
          createdAt := now
          updatedAt := now }
      (some contract,
        { blueprints := setBlueprintFields st.blueprints blueprint.id sorted
          contracts := st.contracts ++ [contract] })

/-- `updateContractFields` of `contractStore.ts`: boolean result plus the
post-call `contracts` slice. -/
def updateContractFields (contracts : List Contract) (id : String)
    (updatedFields : List ContractField) (now : String) : Bool × List Contract :=
  match getContract contracts id with
  | none => (false, contracts)
  | some contract =>
    let isManagerEditable := contract.status == .CREATED
    let isClientEditable := contract.status == .SENT
    if !isManagerEditable && !isClientEditable then (false, contracts)
    else
      (true, contracts.map fun c =>
        if c.id == id then { c with fields := updatedFields, updatedAt := now } else c)

/-- `transitionStatus` of `contractStore.ts`: boolean result plus the
post-call `contracts` slice. -/
def transitionStatus (contracts : List Contract) (id : String)
    (newStatus : ContractStatus) (now : String) : Bool × List Contract :=
  match getContract contracts id with
  | none => (false, contracts)
  | some contract =>
    if !canTransition contract.status newStatus then (false, contracts)
    else
      (true, contracts.map fun c =>
        if c.id == id then { c with status := newStatus, updatedAt := now } else c)

/-- `deleteContract` of `contractStore.ts`: returns whether the id existed
and removes every contract bearing it when it did. -/
def deleteContract (contracts : List Contract) (id : String) : Bool × List Contract :=
  let existed := contracts.any (fun c => c.id == id)
  (existed, if existed then contracts.filter (fun c => !(c.id == id)) else contracts)

/-- `q` occurs at the start of `s` (character-list form of JavaScript
`startsWith`, the building block of substring search). -/
def leadsWith : List Char → List Char → Bool
  | [], _ => true
  | _ :: _, [] => false
  | a :: q, b :: s => a == b && leadsWith q s

/-- `q` occurs contiguously somewhere in `s`: try every start position. -/
def includesSub (q : List Char) : List Char → Bool
  | [] => leadsWith q []
  | b :: s => leadsWith q (b :: s) || includesSub q s

/-- JavaScript `s.includes(q)`: `q` is a contiguous substring of `s`. -/
def strIncludes (s q : String) : Bool :=
  includesSub q.toList s.toList

/-- `searchContracts` of `contractStore.ts`: lowercase the query, keep the
contracts whose lowercased name or lowercased blueprint name contains it. -/
def searchContracts (contracts : List Contract) (query : String) : List Contract :=
  let q := jsToLower query
  contracts.filter fun c =>
    strIncludes (jsToLower c.name) q || strIncludes (jsToLower c.blueprintName) q

/-- The mathematical statement matched by `strIncludes`: the characters of
`q` appear contiguously inside the characters of `s`. -/
def SubstringOf (q s : String) : Prop :=
  ∃ pre post : List Char, s.toList = pre ++ q.toList ++ post

/-- A blueprint-store mutation: wholesale replacement of a blueprint's name
and field list (covering field add / remove / reorder / relabel), or deletion
of the blueprint. -/
inductive BlueprintOp where
  | update (id : String) (newName : String) (newFields : List BlueprintField) (now : String)
  | delete (id : String)
deriving DecidableEq, Repr

/-- Modelled from the spec: the mutating operations of
`src/stores/blueprintStore.ts` (not among the provided sources).  Spec §4.2:
`updateBlueprint` applies field add/remove/reorder/relabel to the stored
blueprint and does not touch any existing contract; `deleteBlueprint`
removes the blueprint. -/
def applyBlueprintOp (blueprints : List Blueprint) : BlueprintOp → List Blueprint
  | .update i newName newFields now =>
      blueprints.map fun b =>
        if b.id == i then { b with name := newName, fields := newFields, updatedAt := now }
        else b
  | .delete i => blueprints.filter fun b => !(b.id == i)

/-- A sequence of blueprint-store mutations applied to the combined state;
they act on the blueprint slice only. -/
def applyBlueprintOps (st : AppState) (ops : List BlueprintOp) : AppState :=
  { st with blueprints := ops.foldl applyBlueprintOp st.blueprints }

instance : IsTotal BlueprintField fieldPosLe :=
  ⟨fun a b => Int.le_total a.position b.position⟩

instance : IsTrans BlueprintField fieldPosLe :=
  ⟨fun _ _ _ h1 h2 => le_trans h1 h2⟩

/-- The attributes of a contract field that `createContract` copies verbatim
from the originating blueprint field (everything except `value`). -/
def contractFieldAttrs (f : ContractField) :
    String × FieldType × String × Int × Bool × Option EditableBy × Option String :=
  (f.id, f.type, f.label, f.position, f.required, f.editableBy, f.placeholder)

/-- The same attribute tuple read off a blueprint field. -/
def blueprintFieldAttrs (bf : BlueprintField) :
    String × FieldType × String × Int × Bool × Option EditableBy × Option String :=
  (bf.id, bf.type, bf.label, bf.position, bf.required, bf.editableBy, bf.placeholder)

/-- Sample blueprint field (the spec's §8 example: label "Name", position 0,
type TEXT). -/
def fieldNameDef : BlueprintField :=
  { id := "f-name"
    type := .TEXT
    label := "Name"
    position := 0
    required := true
    editableBy := some .manager
    placeholder := none
    defaultChecked := none }

/-- Sample blueprint field (the spec's §8 example: label "Sign", position 1,
type SIGNATURE). -/
def fieldSignDef : BlueprintField :=
  { id := "f-sign"
    type := .SIGNATURE
    label := "Sign"
    position := 1
    required := true
    editableBy := some .client
    placeholder := none
    defaultChecked := none }

/-- Sample blueprint, fields already in position order. -/
def ndaBlueprint : Blueprint :=
  { id := "bp-1"
    name := "NDA Template"
    fields := [fieldNameDef, fieldSignDef]
    createdAt := "t0"
    updatedAt := "t0" }

/-- Sample blueprint whose stored field array is NOT in position order
(position 1 stored before position 0). -/
def swappedBlueprint : Blueprint :=
  { id := "bp-2"
    name := "Swapped"
    fields := [fieldSignDef, fieldNameDef]
    createdAt := "t0"
    updatedAt := "t0" }

/-- Sample store state holding the two sample blueprints and no contract. -/
def demoState : AppState :=
  { blueprints := [ndaBlueprint, swappedBlueprint]
    contracts := [] }

/-- A sample stored contract field. -/
def demoTextField : ContractField :=
  { id := "f-name"
    type := .TEXT
    label := "Name"
    position := 0
    required := true
    editableBy := some .manager
    placeholder := none
    value := .null }

/-- A sample contract in status `APPROVED`. -/
def contractApproved : Contract :=
  { id := "ct-a"
    name := "Vendor NDA"
    blueprintId := "bp-1"
    blueprintName := "NDA Template"
    status := .APPROVED
    fields := [demoTextField]
    createdAt := "t0"
    updatedAt := "t0" }

/-- A sample contract in status `SIGNED`. -/
def contractSigned : Contract :=
  { id := "ct-s"
    name := "Lease"
    blueprintId := "bp-1"
    blueprintName := "NDA Template"
    status := .SIGNED
    fields := [demoTextField]
    createdAt := "t0"
    updatedAt := "t0" }

/-- A sample contract in status `CREATED`. -/
def contractCreated : Contract :=
  { id := "ct-c"
    name := "Draft deal"
    blueprintId := "bp-1"
    blueprintName := "NDA Template"
    status := .CREATED
    fields := [demoTextField]
    createdAt := "t0"
    updatedAt := "t0" }

/-- The contract that `createContract demoState "ct-1" "t1" "Vendor NDA"
"bp-1"` produces. -/
def demoCreatedContract : Contract :=
  { id := "ct-1"
    name := "Vendor NDA"
    blueprintId := "bp-1"
    blueprintName := "NDA Template"
    status := .CREATED
    fields := [snapshotField fieldNameDef, snapshotField fieldSignDef]
    createdAt := "t1"
    updatedAt := "t1" }

/-- A sample contract unrelated to the query "nda". -/
def contractOther : Contract :=
  { id := "ct-o"
    name := "Lease"
    blueprintId := "bp-9"
    blueprintName := "Lease Template"
    status := .CREATED
    fields := []
    createdAt := "t0"
    updatedAt := "t0" }

end Eurusys

namespace Eurusys

/-- **C1.** `canTransition` agrees with membership in the fixed transition
table for every one of the 36 (from, to) pairs (it is a total function, hence
never throws); `canTransition s s` is false for every status `s`;
`getValidTransitions` returns exactly the listed allowed set for each status,
empty for `LOCKED` and `REVOKED`; and `APPROVED → CREATED` is the sole valid
backward transition. -/
theorem canTransition_spec :
    (∀ s t : ContractStatus,
       canTransition s t = ((getValidTransitions s).contains t)) ∧
    (∀ s : ContractStatus, canTransition s s = false) ∧
    getValidTransitions .CREATED = [.APPROVED, .REVOKED] ∧
    getValidTransitions .APPROVED = [.SENT, .REVOKED, .CREATED] ∧
    getValidTransitions .SENT = [.SIGNED, .REVOKED] ∧
    getValidTransitions .SIGNED = [.LOCKED] ∧
    getValidTransitions .LOCKED = [] ∧
    getValidTransitions .REVOKED = [] ∧
    (∀ s t : ContractStatus,
       canTransition s t = true → stepIdx t < stepIdx s →
         s = .APPROVED ∧ t = .CREATED) := by
  decide

theorem canTransition_spec_witness :
    canTransition .APPROVED .CREATED = true ∧
    stepIdx .CREATED < stepIdx .APPROVED ∧
    (ContractStatus.APPROVED = .APPROVED ∧ ContractStatus.CREATED = .CREATED) :=
  ⟨by decide, by decide,
    canTransition_spec.2.2.2.2.2.2.2.2 .APPROVED .CREATED (by decide) (by decide)⟩

theorem find?_map_update {α : Type} (q : α → Bool) (upd : α → α)
    (hq : ∀ x, q x = true → q (upd x) = true) (l : List α) (c : α)
    (h : l.find? q = some c) :
    (l.map fun x => if q x then upd x else x).find? q = some (upd c) := by
  induction l with
  | nil => simp at h
  | cons a l ih =>
    by_cases ha : q a = true
    · rw [List.find?_cons_of_pos _ ha] at h
      injection h with h
      subst h
      rw [List.map_cons, if_pos ha]
      exact List.find?_cons_of_pos _ (hq a ha)
    · rw [List.find?_cons_of_neg _ ha] at h
      simp only [List.map_cons, if_neg ha]
      rw [List.find?_cons_of_neg _ ha]
      exact ih h

theorem mem_map_update_of_neg {α : Type} (q : α → Bool) (upd : α → α)
    (l : List α) (x : α) (hx : x ∈ l) (h : q x = false) :
    x ∈ l.map fun y => if q y then upd y else y := by
  simpa [h] using List.mem_map_of_mem (fun y => if q y then upd y else y) hx

theorem find?_append_of_none {α : Type} (p : α → Bool) (l₁ l₂ : List α)
    (h : ∀ x ∈ l₁, p x = false) : (l₁ ++ l₂).find? p = l₂.find? p := by
  induction l₁ with
  | nil => simp
  | cons a l ih =>
    have ha : ¬ p a = true := by simp [h a (List.mem_cons_self a l)]
    rw [List.cons_append, List.find?_cons_of_neg _ ha]
    exact ih fun x hx => h x (List.mem_cons_of_mem a hx)

theorem leadsWith_iff (q : List Char) : ∀ s : List Char,
    leadsWith q s = true ↔ ∃ post, s = q ++ post := by
  induction q with
  | nil => intro s; simp [leadsWith]
  | cons a q ih =>
    intro s
    cases s with
    | nil =>
      simp only [leadsWith, List.cons_append]
      constructor
      · intro h; cases h
      · rintro ⟨post, h⟩; cases h
    | cons b s =>
      simp only [leadsWith, Bool.and_eq_true, beq_iff_eq, ih, List.cons_append]
      constructor
      · rintro ⟨rfl, post, rfl⟩
        exact ⟨post, rfl⟩
      · rintro ⟨post, h⟩
        injection h with h1 h2
        exact ⟨h1.symm, post, h2⟩

theorem includesSub_iff (q : List Char) : ∀ s : List Char,
    includesSub q s = true ↔ ∃ pre post, s = pre ++ q ++ post := by
  intro s
  induction s with
  | nil =>
    simp only [includesSub, leadsWith_iff]
    constructor
    · rintro ⟨post, h⟩
      exact ⟨[], post, h⟩
    · rintro ⟨pre, post, h⟩
      rcases List.append_eq_nil.mp h.symm with ⟨h1, h2⟩
      rcases List.append_eq_nil.mp h1 with ⟨h3, h4⟩
      exact ⟨[], by simp [h2, h3, h4]⟩
  | cons b s ih =>
    simp only [includesSub, Bool.or_eq_true, leadsWith_iff, ih]
    constructor
    · rintro (⟨post, h⟩ | ⟨pre, post, rfl⟩)
      · exact ⟨[], post, by simpa using h⟩
      · exact ⟨b :: pre, post, by simp⟩
    · rintro ⟨pre, post, h⟩
      cases pre with
      | nil =>
        left
        exact ⟨post, by simpa using h⟩
      | cons x pre =>
        right
        rw [List.cons_append, List.cons_append] at h
        injection h with h1 h2
        exact ⟨pre, post, by simpa using h2⟩

theorem strIncludes_iff (s q : String) :
    strIncludes s q = true ↔ SubstringOf q s := by
  simp only [strIncludes, SubstringOf, includesSub_iff]

/-- **C7.** The four dashboard filters carry exactly the listed status sets,
they partition the six statuses (every status lies in exactly one bucket),
and `getContractsByFilter` returns exactly the stored contracts whose status
lies in the filter's set. -/
theorem dashboard_partition :
    (getStatusesForFilter .active = [.CREATED, .APPROVED] ∧
     getStatusesForFilter .pending = [.SENT] ∧
     getStatusesForFilter .signed = [.SIGNED, .LOCKED] ∧
     getStatusesForFilter .archived = [.REVOKED]) ∧
    (∀ s : ContractStatus, ∃! f : DashboardFilter, s ∈ getStatusesForFilter f) ∧
    (∀ (contracts : List Contract) (f : DashboardFilter) (c : Contract),
       c ∈ getContractsByFilter contracts f ↔
         c ∈ contracts ∧ c.status ∈ getStatusesForFilter f) := by
  refine ⟨by decide, ?_, ?_⟩
  · intro s
    cases s with
    | CREATED => exact ⟨.active, by decide, by decide⟩
    | APPROVED => exact ⟨.active, by decide, by decide⟩
    | SENT => exact ⟨.pending, by decide, by decide⟩
    | SIGNED => exact ⟨.signed, by decide, by decide⟩
    | LOCKED => exact ⟨.signed, by decide, by decide⟩
    | REVOKED => exact ⟨.archived, by decide, by decide⟩
  · intro contracts f c
    simp [getContractsByFilter, List.mem_filter, List.elem_iff]

theorem dashboard_partition_witness :
    contractApproved ∈ getContractsByFilter [contractApproved, contractSigned] .active ∧
    contractSigned ∉ getContractsByFilter [contractApproved, contractSigned] .active :=
  ⟨(dashboard_partition.2.2 [contractApproved, contractSigned] .active
      contractApproved).mpr ⟨by decide, by decide⟩,
   fun h => by
     have := (dashboard_partition.2.2 [contractApproved, contractSigned] .active
       contractSigned).mp h
     exact absurd this.2 (by decide)⟩

/-- **C8.** `deleteContract` returns false and leaves the repository
unchanged when the id is absent; when the id is present it returns true and
removes exactly the contracts bearing that id, keeping all others (in
order). -/
theorem deleteContract_spec (contracts : List Contract) (id : String) :
    ((∀ x ∈ contracts, x.id ≠ id) → deleteContract contracts id = (false, contracts)) ∧
    (∀ c ∈ contracts, c.id = id →
       (deleteContract contracts id).1 = true ∧
       List.Sublist (deleteContract contracts id).2 contracts ∧
       (∀ x, x ∈ (deleteContract contracts id).2 ↔ x ∈ contracts ∧ x.id ≠ id)) := by
  constructor
  · intro h
    have hany : contracts.any (fun c => c.id == id) = false := by
      rw [List.any_eq_false]
      intro x hx
      simp [h x hx]
    simp [deleteContract, hany]
  · intro c hc hcid
    have hany : contracts.any (fun c => c.id == id) = true := by
      rw [List.any_eq_true]
      exact ⟨c, hc, by simp [hcid]⟩
    refine ⟨by simp [deleteContract, hany], ?_, ?_⟩
    · simp only [deleteContract, hany, if_pos]
      exact List.filter_sublist contracts
    · intro x
      simp [deleteContract, hany, List.mem_filter]

theorem deleteContract_spec_witness :
    contractSigned ∈ [contractApproved, contractSigned] ∧
    contractSigned.id = "ct-s" ∧
    (deleteContract [contractApproved, contractSigned] "ct-s").1 = true ∧
    contractApproved ∈ (deleteContract [contractApproved, contractSigned] "ct-s").2 ∧
    contractSigned ∉ (deleteContract [contractApproved, contractSigned] "ct-s").2 ∧
    deleteContract [contractApproved, contractSigned] "ct-x"
      = (false, [contractApproved, contractSigned]) := by
  have h := deleteContract_spec [contractApproved, contractSigned] "ct-s"
  have hx := deleteContract_spec [contractApproved, contractSigned] "ct-x"
  have hmem : contractSigned ∈ [contractApproved, contractSigned] := by decide
  have hid : contractSigned.id = "ct-s" := by decide
  have hs := h.2 contractSigned hmem hid
  exact ⟨hmem, hid, hs.1,
    (hs.2.2 contractApproved).mpr ⟨by decide, by decide⟩,
    fun hm => absurd ((hs.2.2 contractSigned).mp hm).2 (by simp [hid]),
    hx.1 (by decide)⟩

/-- **C9.** `searchContracts` returns exactly the stored contracts whose
lowercased name or lowercased blueprint name contains the lowercased query
as a contiguous substring (case-insensitive substring match). -/
theorem searchContracts_spec (contracts : List Contract) (query : String) (c : Contract) :
    c ∈ searchContracts contracts query ↔
      c ∈ contracts ∧
        ( SubstringOf (jsToLower query) (jsToLower c.name) ∨
          SubstringOf (jsToLower query) (jsToLower c.blueprintName)) := by
  simp [searchContracts, List.mem_filter, strIncludes_iff]

theorem searchContracts_spec_witness :
    contractApproved ∈ searchContracts [contractApproved, contractSigned, contractOther] "nda" ∧
    contractSigned ∈ searchContracts [contractApproved, contractSigned, contractOther] "nda" ∧
    contractOther ∉ searchContracts [contractApproved, contractSigned, contractOther] "nda" :=
  ⟨(searchContracts_spec _ "nda" contractApproved).mpr
     ⟨by decide, Or.inl ⟨"vendor ".toList, [], by decide⟩⟩,
   (searchContracts_spec _ "nda" contractSigned).mpr
     ⟨by decide, Or.inr ⟨[], " template".toList, by decide⟩⟩,
   fun h => by
     rcases ((searchContracts_spec _ "nda" contractOther).mp h).2 with hn | hb
     · exact absurd ((strIncludes_iff _ _).mpr hn) (by decide)
     · exact absurd ((strIncludes_iff _ _).mpr hb) (by decide)⟩

theorem transitionStatus_notFound (contracts : List Contract) (id : String)
    (ns : ContractStatus) (now : String) (h : getContract contracts id = none) :
    transitionStatus contracts id ns now = (false, contracts) := by
  simp [transitionStatus, h]

theorem transitionStatus_invalid (contracts : List Contract) (id : String)
    (ns : ContractStatus) (now : String) (c : Contract)
    (hc : getContract contracts id = some c)
    (hcan : canTransition c.status ns = false) :
    transitionStatus contracts id ns now = (false, contracts) := by
  simp [transitionStatus, hc, hcan]

theorem transitionStatus_success (contracts : List Contract) (id : String)
    (ns : ContractStatus) (now : String) (c : Contract)
    (hc : getContract contracts id = some c)
    (hcan : canTransition c.status ns = true) :
    (transitionStatus contracts id ns now).1 = true ∧
    getContract (transitionStatus contracts id ns now).2 id
      = some { c with status := ns, updatedAt := now } ∧
    (transitionStatus contracts id ns now).2.length = contracts.length ∧
    (∀ x ∈ contracts, x.id ≠ id → x ∈ (transitionStatus contracts id ns now).2) := by
  have hres : transitionStatus contracts id ns now
      = (true, contracts.map fun x =>
          if x.id == id then { x with status := ns, updatedAt := now } else x) := by
    simp [transitionStatus, hc, hcan]
  have hfind : contracts.find? (fun x => x.id == id) = some c := hc
  rw [hres]
  refine ⟨rfl, ?_, by simp, ?_⟩
  · exact find?_map_update (fun x => x.id == id)
      (fun x => { x with status := ns, updatedAt := now })
      (fun x hx => hx) contracts c hfind
  · intro x hx hne
    exact mem_map_update_of_neg _ _ contracts x hx (by simp [hne])

theorem updateContractFields_notFound (contracts : List Contract) (id : String)
    (fs : List ContractField) (now : String) (h : getContract contracts id = none) :
    updateContractFields contracts id fs now = (false, contracts) := by
  simp [updateContractFields, h]

theorem updateContractFields_wrongStatus (contracts : List Contract) (id : String)
    (fs : List ContractField) (now : String) (c : Contract)
    (hc : getContract contracts id = some c)
    (h1 : c.status ≠ .CREATED) (h2 : c.status ≠ .SENT) :
    updateContractFields contracts id fs now = (false, contracts) := by
  have e1 : (c.status == ContractStatus.CREATED) = false := by simp [h1]
  have e2 : (c.status == ContractStatus.SENT) = false := by simp [h2]
  simp [updateContractFields, hc, e1, e2]

theorem updateContractFields_success (contracts : List Contract) (id : String)
    (fs : List ContractField) (now : String) (c : Contract)
    (hc : getContract contracts id = some c)
    (hs : c.status = .CREATED ∨ c.status = .SENT) :
    (updateContractFields contracts id fs now).1 = true ∧
    getContract (updateContractFields contracts id fs now).2 id
      = some { c with fields := fs, updatedAt := now } ∧
    (updateContractFields contracts id fs now).2.length = contracts.length ∧
    (∀ x ∈ contracts, x.id ≠ id → x ∈ (updateContractFields contracts id fs now).2) := by
  have hres : updateContractFields contracts id fs now
      = (true, contracts.map fun x =>
          if x.id == id then { x with fields := fs, updatedAt := now } else x) := by
    rcases hs with h | h <;> simp [updateContractFields, hc, h]
  have hfind : contracts.find? (fun x => x.id == id) = some c := hc
  rw [hres]
  refine ⟨rfl, ?_, by simp, ?_⟩
  · exact find?_map_update (fun x => x.id == id)
      (fun x => { x with fields := fs, updatedAt := now })
      (fun x hx => hx) contracts c hfind
  · intro x hx hne
    exact mem_map_update_of_neg _ _ contracts x hx (by simp [hne])

theorem canTransition_terminal_false (s ns : ContractStatus)
    (hs : s = .SIGNED ∨ s = .LOCKED ∨ s = .REVOKED)
    (hne : ¬(s = .SIGNED ∧ ns = .LOCKED)) : canTransition s ns = false := by
  revert hne
  rcases hs with h | h | h <;> subst h <;> cases ns <;> decide

/-- **C4.** `transitionStatus` fails leaving the repository unchanged when
the id is unknown or when `canTransition(current, newStatus)` is false;
otherwise it returns success, the contract now carries the new status with
`updatedAt` bumped to the call timestamp, and all other contracts are kept.
It returns a boolean result rather than throwing. -/
theorem transitionStatus_spec (contracts : List Contract) (id : String)
    (ns : ContractStatus) (now : String) :
    (getContract contracts id = none →
       transitionStatus contracts id ns now = (false, contracts)) ∧
    (∀ c, getContract contracts id = some c → canTransition c.status ns = false →
       transitionStatus contracts id ns now = (false, contracts)) ∧
    (∀ c, getContract contracts id = some c → canTransition c.status ns = true →
       (transitionStatus contracts id ns now).1 = true ∧
       getContract (transitionStatus contracts id ns now).2 id
         = some { c with status := ns, updatedAt := now } ∧
       (transitionStatus contracts id ns now).2.length = contracts.length ∧
       (∀ x ∈ contracts, x.id ≠ id → x ∈ (transitionStatus contracts id ns now).2)) :=
  ⟨fun h => transitionStatus_notFound contracts id ns now h,
   fun c hc hcan => transitionStatus_invalid contracts id ns now c hc hcan,
   fun c hc hcan => transitionStatus_success contracts id ns now c hc hcan⟩

theorem transitionStatus_spec_witness :
    (getContract [contractApproved, contractSigned] "ct-a" = some contractApproved ∧
     canTransition contractApproved.status .LOCKED = false ∧
     transitionStatus [contractApproved, contractSigned] "ct-a" .LOCKED "t1"
       = (false, [contractApproved, contractSigned])) ∧
    (getContract [contractApproved, contractSigned] "ct-s" = some contractSigned ∧
     canTransition contractSigned.status .LOCKED = true ∧
     (transitionStatus [contractApproved, contractSigned] "ct-s" .LOCKED "t1").1 = true ∧
     getContract
         (transitionStatus [contractApproved, contractSigned] "ct-s" .LOCKED "t1").2 "ct-s"
       = some { contractSigned with status := .LOCKED, updatedAt := "t1" }) := by
  refine ⟨⟨by decide, by decide, ?_⟩, ⟨by decide, by decide, ?_, ?_⟩⟩
  · exact (transitionStatus_spec [contractApproved, contractSigned] "ct-a" .LOCKED "t1").2.1
      contractApproved (by decide) (by decide)
  · exact ((transitionStatus_spec [contractApproved, contractSigned] "ct-s" .LOCKED "t1").2.2
      contractSigned (by decide) (by decide)).1
  · exact ((transitionStatus_spec [contractApproved, contractSigned] "ct-s" .LOCKED "t1").2.2
      contractSigned (by decide) (by decide)).2.1

/-- **C5.** `updateContractFields` fails (returning a boolean, not throwing)
leaving the repository unchanged when the id is unknown or when the status is
neither CREATED nor SENT; otherwise it returns success, replaces the
contract's field list wholesale with the given list and bumps `updatedAt`,
keeping all other contracts. -/
theorem updateContractFields_spec (contracts : List Contract) (id : String)
    (fs : List ContractField) (now : String) :
    (getContract contracts id = none →
       updateContractFields contracts id fs now = (false, contracts)) ∧
    (∀ c, getContract contracts id = some c →
       c.status ≠ .CREATED → c.status ≠ .SENT →
       updateContractFields contracts id fs now = (false, contracts)) ∧
    (∀ c, getContract contracts id = some c →
       (c.status = .CREATED ∨ c.status = .SENT) →
       (updateContractFields contracts id fs now).1 = true ∧
       getContract (updateContractFields contracts id fs now).2 id
         = some { c with fields := fs, updatedAt := now } ∧
       (updateContractFields contracts id fs now).2.length = contracts.length ∧
       (∀ x ∈ contracts, x.id ≠ id → x ∈ (updateContractFields contracts id fs now).2)) :=
  ⟨fun h => updateContractFields_notFound contracts id fs now h,
   fun c hc h1 h2 => updateContractFields_wrongStatus contracts id fs now c hc h1 h2,
   fun c hc hs => updateContractFields_success contracts id fs now c hc hs⟩

theorem updateContractFields_spec_witness :
    (getContract [contractCreated, contractSigned] "ct-s" = some contractSigned ∧
     contractSigned.status ≠ .CREATED ∧
     contractSigned.status ≠ .SENT ∧
     updateContractFields [contractCreated, contractSigned] "ct-s" [] "t1"
       = (false, [contractCreated, contractSigned])) ∧
    (getContract [contractCreated, contractSigned] "ct-c" = some contractCreated ∧
     contractCreated.status = .CREATED ∧
     (updateContractFields [contractCreated, contractSigned] "ct-c"
        [{ demoTextField with value := .str "Alice" }] "t1").1 = true ∧
     getContract
         (updateContractFields [contractCreated, contractSigned] "ct-c"
           [{ demoTextField with value := .str "Alice" }] "t1").2 "ct-c"
       = some { contractCreated with
                  fields := [{ demoTextField with value := .str "Alice" }]
                  updatedAt := "t1" }) := by
  refine ⟨⟨by decide, by decide, by decide, ?_⟩, ⟨by decide, by decide, ?_, ?_⟩⟩
  · exact (updateContractFields_spec [contractCreated, contractSigned] "ct-s" [] "t1").2.1
      contractSigned (by decide) (by decide) (by decide)
  · exact ((updateContractFields_spec [contractCreated, contractSigned] "ct-c"
      [{ demoTextField with value := .str "Alice" }] "t1").2.2
      contractCreated (by decide) (Or.inl (by decide))).1
  · exact ((updateContractFields_spec [contractCreated, contractSigned] "ct-c"
      [{ demoTextField with value := .str "Alice" }] "t1").2.2
      contractCreated (by decide) (Or.inl (by decide))).2.1

/-- **C3.** On a stored contract whose status is SIGNED, LOCKED or REVOKED,
every `updateContractFields` call fails leaving the repository (hence the
contract's fields) unchanged, and every `transitionStatus` call fails
likewise — except the transition to LOCKED on a SIGNED contract, which
succeeds and is the only permitted further change. -/
theorem terminal_invariant (contracts : List Contract) (id now : String) (c : Contract)
    (hc : getContract contracts id = some c)
    (hterm : c.status = .SIGNED ∨ c.status = .LOCKED ∨ c.status = .REVOKED) :
    (∀ fs, updateContractFields contracts id fs now = (false, contracts)) ∧
    (∀ ns, ¬(c.status = .SIGNED ∧ ns = .LOCKED) →
       transitionStatus contracts id ns now = (false, contracts)) ∧
    (c.status = .SIGNED → (transitionStatus contracts id .LOCKED now).1 = true) := by
  refine ⟨?_, ?_, ?_⟩
  · intro fs
    have h1 : c.status ≠ .CREATED := by rcases hterm with h | h | h <;> simp [h]
    have h2 : c.status ≠ .SENT := by rcases hterm with h | h | h <;> simp [h]
    exact updateContractFields_wrongStatus contracts id fs now c hc h1 h2
  · intro ns hne
    exact transitionStatus_invalid contracts id ns now c hc
      (canTransition_terminal_false c.status ns hterm hne)
  · intro hsig
    have hcan : canTransition c.status .LOCKED = true := by rw [hsig]; decide
    exact (transitionStatus_success contracts id .LOCKED now c hc hcan).1

theorem terminal_invariant_witness :
    (getContract [contractSigned] "ct-s" = some contractSigned ∧
     contractSigned.status = .SIGNED) ∧
    updateContractFields [contractSigned] "ct-s" [] "t1" = (false, [contractSigned]) ∧
    transitionStatus [contractSigned] "ct-s" .APPROVED "t1" = (false, [contractSigned]) ∧
    (transitionStatus [contractSigned] "ct-s" .LOCKED "t1").1 = true := by
  have h := terminal_invariant [contractSigned] "ct-s" "t1" contractSigned
    (by decide) (Or.inl (by decide))
  exact ⟨⟨by decide, by decide⟩, h.1 [], h.2.1 .APPROVED (by decide), h.2.2 (by decide)⟩

theorem createContract_success_eq (st : AppState) (newId now name blueprintId : String)
    (bp : Blueprint) (hname : jsTrim name ≠ "")
    (hbp : getBlueprint st.blueprints blueprintId = some bp) :
    createContract st newId now name blueprintId =
      (some { id := newId
              name := jsTrim name
              blueprintId := bp.id
              blueprintName := bp.name
              status := .CREATED
              fields := (sortFieldsByPosition bp.fields).map snapshotField
              createdAt := now
              updatedAt := now },
       { blueprints := setBlueprintFields st.blueprints bp.id (sortFieldsByPosition bp.fields)
         contracts := st.contracts ++
           [{ id := newId
              name := jsTrim name
              blueprintId := bp.id
              blueprintName := bp.name
              status := .CREATED
              fields := (sortFieldsByPosition bp.fields).map snapshotField
              createdAt := now
              updatedAt := now }] }) := by
  have hn : (jsTrim name == "") = false := by simp [hname]
  simp [createContract, hn, hbp]

/-- **C6.** `createContract` fails, changing nothing, when the trimmed name
is empty or the blueprint id does not resolve; on success it appends exactly
one new contract: status CREATED, name the trimmed input, blueprint name
copied from the blueprint at that moment, `createdAt = updatedAt = now`, and
fields that are attribute-for-attribute copies of the blueprint's fields
ordered by position, with every CHECKBOX value initialized to the blueprint's
default-checked flag (false if unset) and every other value to null. -/
theorem createContract_spec (st : AppState) (newId now name blueprintId : String) :
    (jsTrim name = "" → createContract st newId now name blueprintId = (none, st)) ∧
    (getBlueprint st.blueprints blueprintId = none →
       createContract st newId now name blueprintId = (none, st)) ∧
    (∀ bp, jsTrim name ≠ "" → getBlueprint st.blueprints blueprintId = some bp →
       ∃ c, (createContract st newId now name blueprintId).1 = some c ∧
         (createContract st newId now name blueprintId).2.contracts = st.contracts ++ [c] ∧
         c.id = newId ∧
         c.name = jsTrim name ∧
         c.status = .CREATED ∧
         c.blueprintId = bp.id ∧
         c.blueprintName = bp.name ∧
         c.createdAt = now ∧
         c.updatedAt = now ∧
         c.fields.Pairwise (fun a b => a.position ≤ b.position) ∧
         List.Perm (c.fields.map contractFieldAttrs) (bp.fields.map blueprintFieldAttrs) ∧
         (∀ f ∈ c.fields, ∃ bf ∈ bp.fields,
            contractFieldAttrs f = blueprintFieldAttrs bf ∧
            f.value = (if bf.type = .CHECKBOX
                       then .bool (bf.defaultChecked.getD false)
                       else .null))) := by
  refine ⟨?_, ?_, ?_⟩
  · intro h
    simp [createContract, h]
  · intro h
    by_cases hn : jsTrim name = ""
    · simp [createContract, hn]
    · have hn2 : (jsTrim name == "") = false := by simp [hn]
      simp [createContract, hn2, h]
  · intro bp hname hbp
    rw [createContract_success_eq st newId now name blueprintId bp hname hbp]
    refine ⟨_, rfl, rfl, rfl, rfl, rfl, rfl, rfl, rfl, rfl, ?_, ?_, ?_⟩
    · rw [List.pairwise_map]
      exact (List.sorted_insertionSort fieldPosLe bp.fields).imp fun h => h
    · rw [List.map_map]
      have hcomp : contractFieldAttrs ∘ snapshotField = blueprintFieldAttrs := by
        funext bf
        rfl
      rw [hcomp]
      exact (List.perm_insertionSort fieldPosLe bp.fields).map blueprintFieldAttrs
    · intro f hf
      rcases List.mem_map.mp hf with ⟨bf, hbf, rfl⟩
      have hbf2 : bf ∈ bp.fields :=
        (List.perm_insertionSort fieldPosLe bp.fields).mem_iff.mp hbf
      refine ⟨bf, hbf2, rfl, ?_⟩
      by_cases h : bf.type = .CHECKBOX <;> simp [snapshotField, h]

theorem createContract_spec_witness :
    jsTrim "Vendor NDA" ≠ "" ∧
    getBlueprint demoState.blueprints "bp-1" = some ndaBlueprint ∧
    (∃ c, (createContract demoState "ct-1" "t1" "Vendor NDA" "bp-1").1 = some c ∧
       (createContract demoState "ct-1" "t1" "Vendor NDA" "bp-1").2.contracts
         = demoState.contracts ++ [c] ∧
       c.id = "ct-1" ∧
       c.name = jsTrim "Vendor NDA" ∧
       c.status = .CREATED ∧
       c.blueprintId = ndaBlueprint.id ∧
       c.blueprintName = ndaBlueprint.name ∧
       c.createdAt = "t1" ∧
       c.updatedAt = "t1" ∧
       c.fields.Pairwise (fun a b => a.position ≤ b.position) ∧
       List.Perm (c.fields.map contractFieldAttrs)
         (ndaBlueprint.fields.map blueprintFieldAttrs) ∧
       (∀ f ∈ c.fields, ∃ bf ∈ ndaBlueprint.fields,
          contractFieldAttrs f = blueprintFieldAttrs bf ∧
          f.value = (if bf.type = .CHECKBOX
                     then .bool (bf.defaultChecked.getD false)
                     else .null))) :=
  ⟨by decide, by decide,
   (createContract_spec demoState "ct-1" "t1" "Vendor NDA" "bp-1").2.2
     ndaBlueprint (by decide) (by decide)⟩

/-- **C2.** A contract created from a blueprint is a point-in-time snapshot:
after any sequence of later blueprint-store mutations (field add / remove /
reorder / relabel via wholesale update, or blueprint deletion) the contract
store is untouched and looking the new contract up still yields it exactly
as created — same fields, same blueprint name. -/
theorem snapshot_invariant (st : AppState) (newId now name blueprintId : String)
    (c : Contract)
    (hc : (createContract st newId now name blueprintId).1 = some c)
    (hfresh : ∀ x ∈ st.contracts, x.id ≠ newId) :
    ∀ ops : List BlueprintOp,
      (applyBlueprintOps (createContract st newId now name blueprintId).2 ops).contracts
        = (createContract st newId now name blueprintId).2.contracts ∧
      getContract
        (applyBlueprintOps (createContract st newId now name blueprintId).2 ops).contracts
        newId = some c := by
  intro ops
  have hsplit : (createContract st newId now name blueprintId).2.contracts
      = st.contracts ++ [c] ∧ c.id = newId := by
    by_cases hn : jsTrim name = ""
    · rw [(createContract_spec st newId now name blueprintId).1 hn] at hc
      cases hc
    · cases hbp : getBlueprint st.blueprints blueprintId with
      | none =>
        rw [(createContract_spec st newId now name blueprintId).2.1 hbp] at hc
        cases hc
      | some bp =>
        rw [createContract_success_eq st newId now name blueprintId bp hn hbp] at hc ⊢
        have hcc := Option.some.inj hc
        subst hcc
        exact ⟨rfl, rfl⟩
  refine ⟨rfl, ?_⟩
  show getContract (createContract st newId now name blueprintId).2.contracts newId = some c
  rw [hsplit.1]
  show (st.contracts ++ [c]).find? (fun x => x.id == newId) = some c
  rw [find?_append_of_none _ st.contracts [c] (fun x hx => by simp [hfresh x hx])]
  exact List.find?_cons_of_pos _ (by simp [hsplit.2])

theorem snapshot_invariant_witness :
    (createContract demoState "ct-1" "t1" "Vendor NDA" "bp-1").1 = some demoCreatedContract ∧
    (∀ x ∈ demoState.contracts, x.id ≠ "ct-1") ∧
    (applyBlueprintOps (createContract demoState "ct-1" "t1" "Vendor NDA" "bp-1").2
         [.update "bp-1" "Renamed" [] "t2"]).contracts
       = (createContract demoState "ct-1" "t1" "Vendor NDA" "bp-1").2.contracts ∧
    getContract
        (applyBlueprintOps (createContract demoState "ct-1" "t1" "Vendor NDA" "bp-1").2
          [.update "bp-1" "Renamed" [] "t2"]).contracts "ct-1"
      = some demoCreatedContract := by
  have h := snapshot_invariant demoState "ct-1" "t1" "Vendor NDA" "bp-1" demoCreatedContract
    (by decide) (by decide) [.update "bp-1" "Renamed" [] "t2"]
  exact ⟨by decide, by decide, h.1, h.2⟩

theorem setBlueprintFields_find (blueprints : List Blueprint) (i : String)
    (bp : Blueprint) (fs : List BlueprintField)
    (h : blueprints.find? (fun b => b.id == i) = some bp) :
    (setBlueprintFields blueprints i fs).find? (fun b => b.id == i)
      = some { bp with fields := fs } := by
  induction blueprints with
  | nil => simp at h
  | cons b bs ih =>
    simp only [setBlueprintFields]
    by_cases hb : (b.id == i) = true
    · have hcons : (b :: bs).find? (fun x => x.id == i) = some b :=
        List.find?_cons_of_pos _ hb
      rw [hcons] at h
      injection h with h
      subst h
      rw [if_pos hb]
      exact List.find?_cons_of_pos _ hb
    · have hcons : (b :: bs).find? (fun x => x.id == i) = bs.find? (fun x => x.id == i) :=
        List.find?_cons_of_neg _ hb
      rw [hcons] at h
      rw [if_neg hb]
      have hcons2 : (b :: setBlueprintFields bs i fs).find? (fun x => x.id == i)
          = (setBlueprintFields bs i fs).find? (fun x => x.id == i) :=
        List.find?_cons_of_neg _ hb
      rw [hcons2]
      exact ih h

theorem setBlueprintFields_mem_other (blueprints : List Blueprint) (i : String)
    (fs : List BlueprintField) (b : Blueprint) (hb : b ∈ blueprints)
    (hne : b.id ≠ i) : b ∈ setBlueprintFields blueprints i fs := by
  induction blueprints with
  | nil => simp at hb
  | cons a bs ih =>
    simp only [setBlueprintFields]
    by_cases ha : (a.id == i) = true
    · rw [if_pos ha]
      rcases List.mem_cons.mp hb with rfl | hb2
      · exact absurd (by simpa using ha) hne
      · exact List.mem_cons_of_mem _ hb2
    · rw [if_neg ha]
      rcases List.mem_cons.mp hb with rfl | hb2
      · exact List.mem_cons_self _ _
      · exact List.mem_cons_of_mem _ (ih hb2)

theorem setBlueprintFields_self (blueprints : List Blueprint) (i : String)
    (bp : Blueprint) (h : blueprints.find? (fun b => b.id == i) = some bp) :
    setBlueprintFields blueprints i bp.fields = blueprints := by
  induction blueprints with
  | nil => rfl
  | cons b bs ih =>
    simp only [setBlueprintFields]
    by_cases hb : (b.id == i) = true
    · have hcons : (b :: bs).find? (fun x => x.id == i) = some b :=
        List.find?_cons_of_pos _ hb
      rw [hcons] at h
      injection h with h
      subst h
      rw [if_pos hb]
    · have hcons : (b :: bs).find? (fun x => x.id == i) = bs.find? (fun x => x.id == i) :=
        List.find?_cons_of_neg _ hb
      rw [hcons] at h
      rw [if_neg hb, ih h]

/-- C10 counterexample: on a blueprint whose stored field array is not in
position order, a successful `createContract` call reorders that stored
array, so the blueprint repository's state is not the same sequence before
and after the call. -/
theorem createContract_mutates_blueprint :
    (getBlueprint ((createContract demoState "ct-2" "t1" "X" "bp-2").2).blueprints "bp-2").map
        Blueprint.fields
      ≠ (getBlueprint demoState.blueprints "bp-2").map Blueprint.fields := by
  decide

/-- **C10 (amended).** `createContract` leaves every blueprint other than the
referenced one unchanged, and a failed call changes nothing; but a successful
call writes the referenced blueprint's stored field list back sorted in
ascending position order (a permutation of the stored fields — in-place
`Array.prototype.sort`).  The blueprint repository is unchanged precisely
when the referenced blueprint's fields were already sorted by position. -/
theorem createContract_blueprint_frame (st : AppState) (newId now name blueprintId : String) :
    ((createContract st newId now name blueprintId).1 = none →
       (createContract st newId now name blueprintId).2 = st) ∧
    (∀ bp, jsTrim name ≠ "" → getBlueprint st.blueprints blueprintId = some bp →
       getBlueprint (createContract st newId now name blueprintId).2.blueprints blueprintId
         = some { bp with fields := sortFieldsByPosition bp.fields } ∧
       List.Perm (sortFieldsByPosition bp.fields) bp.fields ∧
       List.Pairwise fieldPosLe (sortFieldsByPosition bp.fields) ∧
       (∀ b ∈ st.blueprints, b.id ≠ blueprintId →
          b ∈ (createContract st newId now name blueprintId).2.blueprints) ∧
       (List.Pairwise fieldPosLe bp.fields →
          (createContract st newId now name blueprintId).2.blueprints = st.blueprints)) := by
  constructor
  · intro h
    by_cases hn : jsTrim name = ""
    · simp [createContract, hn]
    · cases hbp : getBlueprint st.blueprints blueprintId with
      | none =>
        have hn2 : (jsTrim name == "") = false := by simp [hn]
        simp [createContract, hn2, hbp]
      | some bp =>
        rw [createContract_success_eq st newId now name blueprintId bp hn hbp] at h
        cases h
  · intro bp hname hbp
    have hbpid : bp.id = blueprintId := by
      simpa using List.find?_some hbp
    subst hbpid
    rw [createContract_success_eq st newId now name bp.id bp hname hbp]
    refine ⟨?_, List.perm_insertionSort fieldPosLe bp.fields,
            List.sorted_insertionSort fieldPosLe bp.fields, ?_, ?_⟩
    · exact setBlueprintFields_find st.blueprints bp.id bp _ hbp
    · intro b hb hne
      exact setBlueprintFields_mem_other st.blueprints bp.id _ b hb hne
    · intro hsorted
      have hss : sortFieldsByPosition bp.fields = bp.fields :=
        List.Sorted.insertionSort_eq hsorted
      rw [hss]
      exact setBlueprintFields_self st.blueprints bp.id bp hbp

theorem createContract_blueprint_frame_witness :
    jsTrim "X" ≠ "" ∧
    getBlueprint demoState.blueprints "bp-2" = some swappedBlueprint ∧
    getBlueprint (createContract demoState "ct-2" "t1" "X" "bp-2").2.blueprints "bp-2"
      = some { swappedBlueprint with
                 fields := sortFieldsByPosition swappedBlueprint.fields } ∧
    List.Perm (sortFieldsByPosition swappedBlueprint.fields) swappedBlueprint.fields := by
  have h := (createContract_blueprint_frame demoState "ct-2" "t1" "X" "bp-2").2
    swappedBlueprint (by decide) (by decide)
  exact ⟨by decide, by decide, h.1, h.2.1⟩

end Eurusys
